import Mathlib

/-!
Shallow embedding of the Process Messaging Core of `rembrain_robot_framework`
(`rembrain_robot_framework/process.py`, class `RobotProcess`), together with
theorems settling the specification claims about it.

Modelling conventions:
* Python values travelling through queues are modelled by the inductive `Val`:
  either a plain string payload or a `PersonalMessage` object
  (fields `id`, `client_process`, `data`, as constructed in `process.py`).
* A `multiprocessing.Queue` is `PQueue`: a FIFO list of items (front first)
  plus its `maxsize` (an integer; `maxsize <= 0` means unbounded, as in
  Python's `multiprocessing`). `full()` is `0 < maxsize ∧ maxsize ≤ len`.
* A Python `dict` is an association list with unique keys; insertion of an
  existing key updates it in place, insertion of a new key appends at the
  end, matching CPython's dict ordering semantics.
* Blocking calls (`Queue.get` on an empty queue, `Queue.put` on a full
  bounded queue) are modelled by explicit `blocked` result constructors:
  a single-threaded execution never returns from them.
* Raised exceptions (`KeyError` on a missing dict key, `AttributeError` on a
  missing attribute, the explicit `raise Exception` sites) are explicit
  error constructors.
* The fresh uuid of a personal publish is passed in as a parameter `fresh`
  (the source draws it from `uuid4()`).
-/

namespace Rembrain

/-- A Python value carried by the framework's queues: either an arbitrary
plain payload (modelled as a string) or a `PersonalMessage` object with
fields `id`, `client_process` and `data`. -/
inductive Val where
  | str (s : String) : Val
  | pm (id : String) (client_process : String) (data : Val) : Val
deriving DecidableEq, Repr

/-- `id` attribute of a value, when it is a `PersonalMessage`. -/
def Val.idOf : Val → Option String
  | .str _ => none
  | .pm i _ _ => some i

/-- Whether a value is a `PersonalMessage` object. -/
def Val.isPM : Val → Bool
  | .str _ => false
  | .pm _ _ _ => true

/-- A `multiprocessing.Queue`: FIFO contents (front of the list is the next
item `get` returns) and the `maxsize` it was created with.  In Python a
`maxsize ≤ 0` queue is unbounded. -/
structure PQueue where
  items : List Val
  maxsize : Int
deriving DecidableEq, Repr

/-- `Queue.full()`: true iff the queue is bounded and holds at least
`maxsize` items. -/
def PQueue.full (q : PQueue) : Bool :=
  decide (0 < q.maxsize) && decide (q.maxsize ≤ (q.items.length : Int))

/-- `Queue.put(m)` once there is room: append at the back. -/
def PQueue.push (q : PQueue) (m : Val) : PQueue :=
  { q with items := q.items ++ [m] }

/-- The loop `while q.full(): q.get()` from `publish` with
`clear_on_overflow=True`, written with fuel equal to the queue length
(enough: each iteration of the source loop removes one item, and a full
queue is never empty, so the loop always stops within `len` steps). -/
def popWhileFullAux : Nat → PQueue → PQueue
  | 0, q => q
  | n + 1, q => if q.full then popWhileFullAux n { q with items := q.items.tail } else q

/-- `while q.full(): q.get()`. -/
def PQueue.popWhileFull (q : PQueue) : PQueue :=
  popWhileFullAux q.items.length q

/-- A Python `dict` with `String` keys: association list with unique keys. -/
abbrev Dict (α : Type) := List (String × α)

/-- `d[k]` lookup (`None`-free form: `some` iff the key is present). -/
def dget {α : Type} : Dict α → String → Option α
  | [], _ => none
  | (k, v) :: rest, key => if k = key then some v else dget rest key

/-- `d[k] = v`: update in place if the key exists, else append (CPython
dict insertion order). -/
def dinsert {α : Type} : Dict α → String → α → Dict α
  | [], key, val => [(key, val)]
  | (k, v) :: rest, key, val =>
    if k = key then (k, val) :: rest else (k, v) :: dinsert rest key val

/-- `del d[k]`: drop the (unique) entry with this key. -/
def derase {α : Type} : Dict α → String → Dict α
  | [], _ => []
  | (k, v) :: rest, key => if k = key then rest else (k, v) :: derase rest key

/-- The messaging state of one `RobotProcess` worker: its name and the four
queue/dict fields from `RobotProcess.__init__`. -/
structure Worker where
  name : String
  consume_queues : Dict PQueue
  publish_queues : Dict (List PQueue)
  system_queues : Dict PQueue
  received_personal_messages : Dict Val
deriving DecidableEq, Repr

/-- `RobotProcess.has_consume_queue`. -/
def has_consume_queue (w : Worker) (queue_name : String) : Bool :=
  (dget w.consume_queues queue_name).isSome

/-- `RobotProcess.has_publish_queue`. -/
def has_publish_queue (w : Worker) (queue_name : String) : Bool :=
  (dget w.publish_queues queue_name).isSome

/-- Outcome of `RobotProcess.publish`.  `noQueues` and `ambiguous` are the
two logged early returns (`self.log.error(...)` followed by `return`);
`keyError` is the `KeyError` raised when an explicitly named channel is
absent from `self._publish_queues`; `blocked` is a `q.put` that suspends
forever on a full bounded queue (the call never returns); `sent` carries
the returned `personal_id` and the post state. -/
inductive PubResult where
  | noQueues (w : Worker) : PubResult
  | ambiguous (w : Worker) : PubResult
  | keyError (w : Worker) : PubResult
  | blocked : PubResult
  | sent (personal_id : Option String) (w : Worker) : PubResult
deriving DecidableEq, Repr

/-- The fan-out loop of `publish`: for each queue bound to the channel,
optionally `while q.full(): q.get()`, then `q.put(message)`.  Returns
`none` when a `put` on a still-full queue would block (only possible with
`clear_on_overflow=False`). -/
def putMany : List PQueue → Val → Bool → Option (List PQueue)
  | [], _, _ => some []
  | q :: qs, m, clear =>
    let q1 := if clear then q.popWhileFull else q
    if q1.full then none
    else (putMany qs m clear).map (fun rest => q1.push m :: rest)

/-- `RobotProcess.publish(message, queue_name, clear_on_overflow, is_personal)`.
`fresh` stands for the `str(uuid4())` drawn when `is_personal` is true. -/
def publish (w : Worker) (message : Val) (queue_name : Option String)
    (clear_on_overflow : Bool) (is_personal : Bool) (fresh : String) : PubResult :=
  match w.publish_queues with
  | [] => .noQueues w
  | (k0, _) :: rest =>
    let resolved : Option String :=
      match queue_name with
      | some n => some n
      | none => if rest.isEmpty then some k0 else none
    match resolved with
    | none => .ambiguous w
    | some qn =>
      let pid : Option String := if is_personal then some fresh else none
      let msg : Val := if is_personal then .pm fresh w.name message else message
      match dget w.publish_queues qn with
      | none => .keyError w
      | some qs =>
        match putMany qs msg clear_on_overflow with
        | none => .blocked
        | some qs1 => .sent pid { w with publish_queues := dinsert w.publish_queues qn qs1 }

/-- Outcome of `RobotProcess.consume`: the logged early returns, the
`KeyError` of an absent explicit name, a `get()` that blocks forever on an
empty channel, or the received message with the post state. -/
inductive ConsResult where
  | noQueues (w : Worker) : ConsResult
  | ambiguous (w : Worker) : ConsResult
  | keyError (w : Worker) : ConsResult
  | blocked : ConsResult
  | got (message : Val) (w : Worker) : ConsResult
deriving DecidableEq, Repr

/-- `RobotProcess.consume(queue_name, clear_all_messages)`. -/
def consume (w : Worker) (queue_name : Option String) (clear_all_messages : Bool) : ConsResult :=
  match w.consume_queues with
  | [] => .noQueues w
  | (k0, _) :: rest =>
    let resolved : Option String :=
      match queue_name with
      | some n => some n
      | none => if rest.isEmpty then some k0 else none
    match resolved with
    | none => .ambiguous w
    | some qn =>
      match dget w.consume_queues qn with
      | none => .keyError w
      | some q =>
        match q.items with
        | [] => .blocked
        | m :: ms =>
          if clear_all_messages then
            .got (ms.getLastD m)
              { w with consume_queues := dinsert w.consume_queues qn { q with items := [] } }
          else
            .got m
              { w with consume_queues := dinsert w.consume_queues qn { q with items := ms } }

/-- The four `raise Exception(...)` sites of `RobotProcess.is_full`. -/
inductive FullErr where
  | noneOfParams : FullErr
  | onlyOneMustSet : FullErr
  | consumeNotFound : FullErr
  | publishNotFound : FullErr
deriving DecidableEq, Repr

/-- Python truthiness of an `Optional[str]`: `None` and `""` are falsy. -/
def truthy : Option String → Bool
  | none => false
  | some s => !(s == "")

/-- `RobotProcess.is_full(publish_queue_name=…, consume_queue_name=…)`.
Faithful to the source's mix of `is None` tests and truthiness tests. -/
def is_full (w : Worker) (publish_queue_name consume_queue_name : Option String) :
    Except FullErr Bool :=
  if publish_queue_name.isNone && consume_queue_name.isNone then
    .error .noneOfParams
  else if truthy publish_queue_name && truthy consume_queue_name then
    .error .onlyOneMustSet
  else if truthy consume_queue_name then
    match consume_queue_name.bind (dget w.consume_queues) with
    | none => .error .consumeNotFound
    | some q => .ok q.full
  else
    match publish_queue_name.bind (dget w.publish_queues) with
    | none => .error .publishNotFound
    | some qs => .ok (qs.any PQueue.full)

/-- Outcome of `RobotProcess.consume_from_system_queue`: a returned payload
with the post state, the `raise Exception("Overflow of personal messages …")`,
a forever-blocking `get()` on the worker's empty system channel,
the `AttributeError` of reading `.data` off a value that is not a
`PersonalMessage`, or the `KeyError` of a worker absent from
`self._system_queues`. -/
inductive SysResult where
  | ret (data : Val) (w : Worker) : SysResult
  | overflow : SysResult
  | blocked (w : Worker) : SysResult
  | attrError (w : Worker) : SysResult
  | keyError (w : Worker) : SysResult
deriving DecidableEq, Repr

/-- Result of the `while True` receive loop of `consume_from_system_queue`,
run against the `buf = self._received_personal_messages` dict and the
current contents `msgs` of the worker's own system channel. -/
inductive LoopRes where
  | ret (data : Val) (buf : Dict Val) (remaining : List Val) : LoopRes
  | overflow : LoopRes
  | blocked (buf : Dict Val) : LoopRes
  | attrError (buf : Dict Val) (remaining : List Val) : LoopRes
deriving DecidableEq, Repr

/-- The `while True` loop of `consume_from_system_queue`: before each
receive, fail if the pending buffer holds more than 50 entries; then
`get()` (blocking forever if nothing arrives); return the payload on an id
match, otherwise store `message.data` under `message.id` and continue.
A non-`PersonalMessage` item makes `message.id` raise `AttributeError`. -/
def consumeLoop (personal_id : String) : Dict Val → List Val → LoopRes
  | buf, msgs =>
    if 50 < buf.length then .overflow
    else
      match msgs with
      | [] => .blocked buf
      | m :: rest =>
        match m with
        | .str _ => .attrError buf rest
        | .pm i _ d =>
          if i = personal_id then .ret d buf rest
          else consumeLoop personal_id (dinsert buf i d) rest

/-- `RobotProcess.consume_from_system_queue(personal_id)`.  Note the source's
fast path: the buffer stores `message.data` (the raw payload), but the fast
path reads the stored value, deletes the entry, and returns `stored.data`
again — an `AttributeError` when the payload is a plain value, and the
inner `data` field when the payload happens to be a `PersonalMessage`. -/
def consume_from_system_queue (w : Worker) (personal_id : String) : SysResult :=
  match dget w.received_personal_messages personal_id with
  | some v =>
    let w1 := { w with received_personal_messages := derase w.received_personal_messages personal_id }
    match v with
    | .pm _ _ d => .ret d w1
    | .str _ => .attrError w1
  | none =>
    if 50 < w.received_personal_messages.length then .overflow
    else
      match dget w.system_queues w.name with
      | none => .keyError w
      | some q =>
        match consumeLoop personal_id w.received_personal_messages q.items with
        | .ret d buf rest =>
          .ret d { w with received_personal_messages := buf,
                          system_queues := dinsert w.system_queues w.name { q with items := rest } }
        | .overflow => .overflow
        | .blocked buf =>
          .blocked { w with received_personal_messages := buf,
                            system_queues := dinsert w.system_queues w.name { q with items := [] } }
        | .attrError buf rest =>
          .attrError { w with received_personal_messages := buf,
                              system_queues := dinsert w.system_queues w.name { q with items := rest } }

/-- `RobotProcess.publish_to_system_queue(personal_id, client_process, data)`:
wrap and `put` onto the target worker's system channel.  `KeyError` if the
target is unknown, `blocked` if its system channel is bounded and full. -/
inductive SysPubResult where
  | keyError (w : Worker) : SysPubResult
  | blocked : SysPubResult
  | done (w : Worker) : SysPubResult
deriving DecidableEq, Repr

/-- `RobotProcess.publish_to_system_queue(personal_id, client_process, data)`:
wrap and `put` onto the target worker's system channel.  `KeyError` if the
target is unknown, `blocked` if its system channel is bounded and full. -/
def publish_to_system_queue (w : Worker) (personal_id client_process : String) (data : Val) :
    SysPubResult :=
  match dget w.system_queues client_process with
  | none => .keyError w
  | some q =>
    if q.full then .blocked
    else
      let q1 := q.push (.pm personal_id client_process data)
      .done { w with system_queues := dinsert w.system_queues client_process q1 }

/-- Iterated `publish` of a list of messages on one channel (no
`clear_on_overflow`, not personal), stopping on any outcome other than a
successful send.  Used to express the FIFO-per-channel contract. -/
def publishAll : Worker → List Val → Option String → Option Worker
  | w, [], _ => some w
  | w, m :: ms, qn =>
    match publish w m qn false false "" with
    | .sent _ w1 => publishAll w1 ms qn
    | _ => none

/-- Iterated plain `consume` (`clear_all_messages=False`), collecting the
received messages in order; stops on any outcome other than a receive. -/
def consumeAll : Worker → Nat → Option String → Option (List Val × Worker)
  | w, 0, _ => some ([], w)
  | w, n + 1, qn =>
    match consume w qn false with
    | .got m w1 => (consumeAll w1 n qn).map (fun p => (m :: p.1, p.2))
    | _ => none

/-- A worker with no channels at all (used as a base for concrete states). -/
def emptyWorker : Worker :=
  { name := "A", consume_queues := [], publish_queues := [],
    system_queues := [], received_personal_messages := [] }

/-- An unbounded queue with the given contents. -/
def uq (l : List Val) : PQueue := { items := l, maxsize := 0 }

/-- Concrete worker for the correlation-bug scenario: its own system channel
already delivered a reply with id `X` out of order, so `X ↦ "pong"` sits in
the pending-reply buffer. -/
def wBuffered : Worker :=
  { emptyWorker with
    system_queues := [("A", uq [])],
    received_personal_messages := [("X", Val.str "pong")] }

/-- Concrete worker whose system channel holds the two out-of-order replies
followed by the awaited one. -/
def wRoundTrip : Worker :=
  { emptyWorker with
    system_queues :=
      [("A", uq [Val.pm "X" "A" (Val.str "pong"), Val.pm "Z" "A" (Val.str "zz")])] }

/-- 51 distinct unclaimed replies, none with the awaited id. -/
def msgs51 : List Val := (List.range 51).map (fun i => Val.pm (toString i) "B" (Val.str "d"))

/-- Concrete worker whose system channel holds `msgs51`. -/
def wOverflow : Worker := { emptyWorker with system_queues := [("A", uq msgs51)] }

/-- Concrete worker whose pending-reply buffer already holds 51 entries. -/
def wBufFull : Worker :=
  { emptyWorker with
    system_queues := [("A", uq [])],
    received_personal_messages := (List.range 51).map (fun i => (toString i, Val.str "d")) }

/-- Concrete worker for the `is_full` truthiness counterexample: one consume
channel named `"c"` whose queue is empty and unbounded. -/
def wC8 : Worker := { emptyWorker with consume_queues := [("c", uq [])] }

/-- Concrete worker with two publish channels (ambiguous default). -/
def wTwo : Worker := { emptyWorker with publish_queues := [("a", []), ("b", [])] }

/-- Concrete worker with exactly one consume channel and one publish channel. -/
def wOne : Worker :=
  { emptyWorker with
    consume_queues := [("c", uq [Val.str "a"])],
    publish_queues := [("p", [uq []])] }

/-- The state of `wOne` after a personal publish of `"ping"` with fresh id
`"uuid1"` on its only publish channel. -/
def wOneAfter : Worker :=
  { wOne with publish_queues := [("p", [uq [Val.pm "uuid1" "A" (Val.str "ping")]])] }

/-- A bounded queue of capacity 3 that is already full. -/
def qB3 : PQueue := { items := [Val.str "a", Val.str "b", Val.str "c"], maxsize := 3 }

/-- Concrete worker publishing into the full bounded queue `qB3`. -/
def wFull : Worker := { emptyWorker with publish_queues := [("ch", [qB3])] }

/-- Two messages used for the concrete FIFO scenario. -/
def msFifo : List Val := [Val.str "1", Val.str "2"]

/-- Concrete publisher with one empty unbounded destination on channel `ch`. -/
def wPubFifo : Worker := { emptyWorker with publish_queues := [("ch", [uq []])] }

/-- Concrete consumer whose channel `ch` already holds `msFifo`. -/
def wConFifo : Worker := { emptyWorker with consume_queues := [("ch", uq msFifo)] }

/-- Concrete worker with one consume channel whose queue is empty. -/
def wEmptyQ : Worker := { emptyWorker with consume_queues := [("c", uq [])] }

/-! Lemmas about the dict and queue models. -/

lemma dget_dinsert_self {α : Type} (d : Dict α) (k : String) (v : α) :
    dget (dinsert d k v) k = some v := by
  induction d with
  | nil => simp [dinsert, dget]
  | cons e rest ih =>
    obtain ⟨k0, v0⟩ := e
    by_cases h : k0 = k
    · simp [dinsert, dget, h]
    · simp [dinsert, dget, h, ih]

lemma dget_dinsert_ne {α : Type} (d : Dict α) (k : String) (v : α) (k1 : String)
    (h : k ≠ k1) : dget (dinsert d k v) k1 = dget d k1 := by
  induction d with
  | nil => simp [dinsert, dget, h]
  | cons e rest ih =>
    obtain ⟨k0, v0⟩ := e
    by_cases h0 : k0 = k
    · subst h0
      simp [dinsert, dget, h]
    · simp [dinsert, dget, h0, ih]

lemma length_dinsert_of_none {α : Type} (d : Dict α) (k : String) (v : α)
    (h : dget d k = none) : (dinsert d k v).length = d.length + 1 := by
  induction d with
  | nil => simp [dinsert]
  | cons e rest ih =>
    obtain ⟨k0, v0⟩ := e
    rw [dget] at h
    by_cases h0 : k0 = k
    · rw [if_pos h0] at h
      exact absurd h (by simp)
    · rw [if_neg h0] at h
      simp [dinsert, h0, ih h]

lemma dget_ne_nil {α : Type} {d : Dict α} {k : String} {v : α}
    (h : dget d k = some v) : d ≠ [] := by
  intro he
  rw [he] at h
  simp [dget] at h

lemma full_iff (q : PQueue) :
    q.full = true ↔ 0 < q.maxsize ∧ q.maxsize ≤ (q.items.length : Int) := by
  simp [PQueue.full]

lemma not_full_of_unbounded (q : PQueue) (h : q.maxsize ≤ 0) : q.full = false := by
  rw [Bool.eq_false_iff]
  intro hf
  have := (full_iff q).mp hf
  omega

lemma popWhileFullAux_maxsize (n : Nat) (q : PQueue) :
    (popWhileFullAux n q).maxsize = q.maxsize := by
  induction n generalizing q with
  | zero => rfl
  | succ n ih =>
    rw [popWhileFullAux]
    by_cases h : q.full = true
    · simp [h, ih]
    · simp [h]

lemma popWhileFullAux_length_le (n : Nat) (q : PQueue) :
    (popWhileFullAux n q).items.length ≤ q.items.length := by
  induction n generalizing q with
  | zero => exact le_refl _
  | succ n ih =>
    rw [popWhileFullAux]
    by_cases h : q.full = true
    · simp only [h, if_true]
      exact le_trans (ih _) (by simp [List.length_tail])
    · simp [h]

lemma popWhileFullAux_not_full (n : Nat) (q : PQueue) (h : q.items.length ≤ n) :
    (popWhileFullAux n q).full = false := by
  induction n generalizing q with
  | zero =>
    have h0 : q.items.length = 0 := Nat.le_zero.mp h
    rw [popWhileFullAux, Bool.eq_false_iff]
    intro hf
    have := (full_iff q).mp hf
    rw [h0] at this
    omega
  | succ n ih =>
    rw [popWhileFullAux]
    by_cases hf : q.full = true
    · simp only [hf, if_true]
      apply ih
      have hpos : 0 < q.items.length := by
        have := (full_iff q).mp hf
        omega
      simp [List.length_tail]
      omega
    · rw [if_neg hf]
      exact Bool.eq_false_iff.mpr hf

lemma popWhileFull_not_full (q : PQueue) : q.popWhileFull.full = false :=
  popWhileFullAux_not_full _ _ (le_refl _)

lemma popWhileFull_maxsize (q : PQueue) : q.popWhileFull.maxsize = q.maxsize :=
  popWhileFullAux_maxsize _ _

lemma popWhileFull_length_lt (q : PQueue) (h : q.full = true) :
    q.popWhileFull.items.length < q.items.length := by
  obtain ⟨h1, h2⟩ := (full_iff q).mp h
  have hpos : 0 < q.items.length := by omega
  obtain ⟨n, hn⟩ : ∃ n, q.items.length = n + 1 := ⟨q.items.length - 1, by omega⟩
  unfold PQueue.popWhileFull
  rw [hn, popWhileFullAux]
  simp only [h, if_true]
  have := popWhileFullAux_length_le n { q with items := q.items.tail }
  simp only [List.length_tail] at this
  omega

lemma putMany_clear (qs : List PQueue) (m : Val) :
    putMany qs m true = some (qs.map (fun q => q.popWhileFull.push m)) := by
  induction qs with
  | nil => rfl
  | cons q rest ih => simp [putMany, popWhileFull_not_full, ih]

lemma putMany_no_full (qs : List PQueue) (m : Val) (h : ∀ q ∈ qs, q.full = false) :
    putMany qs m false = some (qs.map (fun q => q.push m)) := by
  induction qs with
  | nil => rfl
  | cons q rest ih =>
    have hq := h q (List.mem_cons_self q rest)
    simp [putMany, hq, ih (fun x hx => h x (List.mem_cons_of_mem q hx))]

lemma putMany_last (qs : List PQueue) (m : Val) (c : Bool) :
    ∀ qs1, putMany qs m c = some qs1 → ∀ q1 ∈ qs1, q1.items.getLast? = some m := by
  induction qs with
  | nil =>
    intro qs1 h
    simp only [putMany, Option.some_inj] at h
    subst h
    intro q1 hq1
    exact absurd hq1 (List.not_mem_nil q1)
  | cons q rest ih =>
    intro qs1 h
    simp only [putMany] at h
    split at h <;> split at h
    · exact absurd h (by simp)
    · obtain ⟨qs2, hqs2, rfl⟩ := Option.map_eq_some'.mp h
      intro q1 hq1
      rcases List.mem_cons.mp hq1 with h1 | h1
      · subst h1
        simp [PQueue.push, List.getLast?_concat]
      · exact ih qs2 hqs2 q1 h1
    · exact absurd h (by simp)
    · obtain ⟨qs2, hqs2, rfl⟩ := Option.map_eq_some'.mp h
      intro q1 hq1
      rcases List.mem_cons.mp hq1 with h1 | h1
      · subst h1
        simp [PQueue.push, List.getLast?_concat]
      · exact ih qs2 hqs2 q1 h1

lemma consumeLoop_nil (pid : String) (buf : Dict Val) :
    consumeLoop pid buf [] =
      if 50 < buf.length then LoopRes.overflow else LoopRes.blocked buf := by
  rw [consumeLoop.eq_def]

lemma consumeLoop_cons_pm (pid : String) (buf : Dict Val) (i c : String) (d : Val)
    (rest : List Val) :
    consumeLoop pid buf (Val.pm i c d :: rest) =
      if 50 < buf.length then LoopRes.overflow
      else if i = pid then LoopRes.ret d buf rest
      else consumeLoop pid (dinsert buf i d) rest := by
  rw [consumeLoop.eq_def]

lemma consumeLoop_overflow (pid : String) :
    ∀ (msgs : List Val) (buf : Dict Val),
      (∀ m ∈ msgs, ∃ i c d, m = Val.pm i c d ∧ i ≠ pid ∧ dget buf i = none) →
      (msgs.map Val.idOf).Nodup →
      51 ≤ buf.length + msgs.length →
      consumeLoop pid buf msgs = .overflow := by
  intro msgs
  induction msgs with
  | nil =>
    intro buf _ _ hlen
    rw [consumeLoop_nil]
    have hb : 50 < buf.length := by simp at hlen; omega
    simp [hb]
  | cons m rest ih =>
    intro buf hall hnod hlen
    obtain ⟨i, c, d, rfl, hne, hfresh⟩ := hall _ (List.mem_cons_self _ _)
    rw [consumeLoop_cons_pm]
    by_cases hb : 50 < buf.length
    · simp [hb]
    · rw [if_neg hb, if_neg hne]
      apply ih
      · intro m1 hm1
        obtain ⟨i1, c1, d1, rfl, hne1, hfresh1⟩ := hall _ (List.mem_cons_of_mem _ hm1)
        refine ⟨i1, c1, d1, rfl, hne1, ?_⟩
        rw [dget_dinsert_ne _ _ _ _ ?_]
        · exact hfresh1
        · intro heq
          have hmem : Val.idOf (Val.pm i1 c1 d1) ∈ rest.map Val.idOf :=
            List.mem_map_of_mem _ hm1
          have hni : Val.idOf (Val.pm i c d) ∉ rest.map Val.idOf :=
            (List.nodup_cons.mp hnod).1
          rw [Val.idOf, ← heq] at hmem
          exact hni hmem
      · exact (List.nodup_cons.mp hnod).2
      · rw [length_dinsert_of_none _ _ _ hfresh]
        simp at hlen ⊢
        omega

lemma publishAll_single (ch : String) :
    ∀ (ms : List Val) (w : Worker) (qs : List PQueue),
      w.publish_queues = [(ch, qs)] →
      (∀ q ∈ qs, q.maxsize ≤ 0) →
      ∃ w1, publishAll w ms (some ch) = some w1 ∧
        w1.publish_queues = [(ch, qs.map (fun q => { q with items := q.items ++ ms }))] := by
  intro ms
  induction ms with
  | nil =>
    intro w qs hw _
    refine ⟨w, rfl, ?_⟩
    rw [hw]
    have he : (fun (q : PQueue) => { q with items := q.items ++ ([] : List Val) }) = id := by
      funext q
      simp
    simp [he]
  | cons m rest ih =>
    intro w qs hw hub
    have hfull : ∀ q ∈ qs, q.full = false := fun q hq => not_full_of_unbounded q (hub q hq)
    have hsent : publish w m (some ch) false false "" =
        .sent none { w with publish_queues := dinsert w.publish_queues ch (qs.map (fun q => q.push m)) } := by
      simp [publish, hw, dget, dinsert, putMany_no_full _ _ hfull]
    obtain ⟨w1, h1, h2⟩ :=
      ih { w with publish_queues := dinsert w.publish_queues ch (qs.map (fun q => q.push m)) }
        (qs.map (fun q => q.push m))
        (by rw [hw]; simp [dinsert])
        (by
          intro q hq
          obtain ⟨q0, hq0, rfl⟩ := List.mem_map.mp hq
          simpa [PQueue.push] using hub q0 hq0)
    refine ⟨w1, ?_, ?_⟩
    · rw [publishAll, hsent]
      exact h1
    · rw [h2, List.map_map]
      have he : ((fun (q : PQueue) => { q with items := q.items ++ rest }) ∘
          (fun (q : PQueue) => q.push m)) =
          (fun (q : PQueue) => { q with items := q.items ++ (m :: rest) }) := by
        funext q
        simp [PQueue.push, List.append_assoc]
      rw [he]

lemma consumeAll_single (ch : String) :
    ∀ (ms : List Val) (w : Worker) (cq : PQueue),
      w.consume_queues = [(ch, cq)] → cq.items = ms →
      ∃ w1, consumeAll w ms.length (some ch) = some (ms, w1) ∧
        w1.consume_queues = [(ch, { cq with items := ([] : List Val) })] := by
  intro ms
  induction ms with
  | nil =>
    intro w cq hw hi
    refine ⟨w, rfl, ?_⟩
    rw [hw]
    obtain ⟨it, msz⟩ := cq
    simp at hi
    simp [hi]
  | cons m rest ih =>
    intro w cq hw hi
    have hcons : consume w (some ch) false =
        .got m { w with consume_queues := dinsert w.consume_queues ch { cq with items := rest } } := by
      simp [consume, hw, dget, hi]
    obtain ⟨w1, h1, h2⟩ :=
      ih { w with consume_queues := dinsert w.consume_queues ch { cq with items := rest } }
        { cq with items := rest }
        (by rw [hw]; simp [dinsert]) rfl
    refine ⟨w1, ?_, ?_⟩
    · simp only [List.length_cons]
      rw [consumeAll, hcons]
      have hmap : (consumeAll
          { w with consume_queues := dinsert w.consume_queues ch { cq with items := rest } }
          rest.length (some ch)).map (fun p => (m :: p.1, p.2)) = some (m :: rest, w1) := by
        rw [h1]
        rfl
      exact hmap
    · exact h2

/-! Claim theorems. -/

/-- C3: for every worker with zero publish channels (whatever arguments the
call uses), and for every worker with two or more publish channels called
without a channel name, `publish` only reports the corresponding error-level
diagnostic and returns `None`: the result constructor records the logged
no-op, the worker state (hence every queue) is returned unchanged, no
exception constructor is produced, and no personal id is returned — also
when `is_personal` is requested. -/
theorem C3_publish_usage_faults (w : Worker) (m : Val) (qn : Option String)
    (c p : Bool) (f : String) :
    (w.publish_queues = [] → publish w m qn c p f = .noQueues w) ∧
    (2 ≤ w.publish_queues.length → publish w m none c p f = .ambiguous w) := by
  constructor
  · intro h
    simp [publish, h]
  · intro h
    rcases hpq : w.publish_queues with _ | ⟨⟨k0, v0⟩, rest⟩
    · rw [hpq] at h
      simp at h
    · have hr : rest.isEmpty = false := by
        rw [hpq] at h
        simp only [List.length_cons] at h
        rcases rest with _ | _
        · simp at h
        · simp
      simp [publish, hpq, hr]

/-- Witness for C3 at concrete inputs: a worker with no publish channels and
a worker with two publish channels, both with a personal send requested. -/
theorem C3_publish_usage_faults_witness :
    publish emptyWorker (Val.str "x") (some "missing") false true "u" = .noQueues emptyWorker ∧
    publish wTwo (Val.str "x") none false true "u" = .ambiguous wTwo :=
  ⟨(C3_publish_usage_faults emptyWorker (Val.str "x") (some "missing") false true "u").1 rfl,
   (C3_publish_usage_faults wTwo (Val.str "x") none false true "u").2 (by decide)⟩

/-- C4: for a worker with exactly one consume channel and exactly one publish
channel, `consume`/`publish` without a name are the very same computation —
same result and same effect on every queue — as the calls naming that
unique channel. -/
theorem C4_default_channel_resolution (w : Worker) (cn : String) (cq : PQueue)
    (pn : String) (pqs : List PQueue) (b c p : Bool) (m : Val) (f : String)
    (hc : w.consume_queues = [(cn, cq)]) (hp : w.publish_queues = [(pn, pqs)]) :
    consume w none b = consume w (some cn) b ∧
    publish w m none c p f = publish w m (some pn) c p f := by
  constructor
  · simp [consume, hc]
  · simp [publish, hp]

/-- Witness for C4 at a concrete one-channel worker. -/
theorem C4_default_channel_resolution_witness :
    consume wOne none false = consume wOne (some "c") false ∧
    publish wOne (Val.str "x") none false false "u" = publish wOne (Val.str "x") (some "p") false false "u" :=
  C4_default_channel_resolution wOne "c" (uq [Val.str "a"]) "p" [uq []]
    false false false (Val.str "x") "u" rfl rfl

/-- C7: `consume` with `clear_all_messages=True` on a resolved channel first
blocks on the channel (an empty channel never returns), and on a non-empty
channel returns the last currently queued message, leaving the channel
empty. -/
theorem C7_draining_consume (w : Worker) (n : String) (q : PQueue)
    (h : dget w.consume_queues n = some q) :
    (q.items = [] → consume w (some n) true = .blocked) ∧
    (∀ m ms, q.items = m :: ms →
      consume w (some n) true =
        .got (ms.getLastD m)
          { w with consume_queues := dinsert w.consume_queues n { q with items := ([] : List Val) } }) := by
  have hne := dget_ne_nil h
  rcases hcq : w.consume_queues with _ | ⟨⟨k0, v0⟩, rest⟩
  · exact absurd hcq hne
  · rw [hcq] at h
    constructor
    · intro hi
      simp [consume, hcq, h, hi]
    · intro m ms hi
      simp [consume, hcq, h, hi]

/-- Witness for C7: draining a channel holding two messages returns the
second and empties the channel; a worker with an empty channel blocks. -/
theorem C7_draining_consume_witness :
    consume wConFifo (some "ch") true =
      .got (Val.str "2")
        { wConFifo with consume_queues := dinsert wConFifo.consume_queues "ch" { uq msFifo with items := ([] : List Val) } } ∧
    consume wEmptyQ (some "c") true = .blocked :=
  ⟨(C7_draining_consume wConFifo "ch" (uq msFifo) rfl).2 (Val.str "1") [Val.str "2"] rfl,
   (C7_draining_consume wEmptyQ "c" (uq []) rfl).1 rfl⟩

/-- C10 counterexample: a worker with no publish channels (and no consume
channels) called with an explicitly named, necessarily absent channel does
not raise a lookup error: both calls take the logged-silent-no-op early
return that the claim reserves for omitted-name usage faults. -/
theorem C10_zero_channel_counterexample :
    publish emptyWorker (Val.str "x") (some "missing") false false "u" = .noQueues emptyWorker ∧
    consume emptyWorker (some "missing") false = .noQueues emptyWorker :=
  ⟨rfl, rfl⟩

/-- C10 amended: for every worker with at least one publish channel, naming
an absent publish channel makes `publish` raise a `KeyError`-kind condition
with no queue changed, and for every worker with at least one consume
channel, naming an absent consume channel makes `consume` raise a
`KeyError`-kind condition with no queue changed.  (The original claim fails
for workers with zero channels, which silently no-op instead.) -/
theorem C10_explicit_missing_name_amended (w : Worker) (m : Val) (n : String)
    (c p b : Bool) (f : String) :
    (w.publish_queues ≠ [] → dget w.publish_queues n = none →
       publish w m (some n) c p f = .keyError w) ∧
    (w.consume_queues ≠ [] → dget w.consume_queues n = none →
       consume w (some n) b = .keyError w) := by
  constructor
  · intro hne h
    rcases hpq : w.publish_queues with _ | ⟨⟨k0, v0⟩, rest⟩
    · exact absurd hpq hne
    · rw [hpq] at h
      simp [publish, hpq, h]
  · intro hne h
    rcases hcq : w.consume_queues with _ | ⟨⟨k0, v0⟩, rest⟩
    · exact absurd hcq hne
    · rw [hcq] at h
      simp [consume, hcq, h]

/-- Witness for the amended C10 at a concrete one-channel worker. -/
theorem C10_explicit_missing_name_amended_witness :
    publish wOne (Val.str "x") (some "zz") false false "u" = .keyError wOne ∧
    consume wOne (some "zz") false = .keyError wOne :=
  ⟨(C10_explicit_missing_name_amended wOne (Val.str "x") "zz" false false false "u").1
      (by decide) (by decide),
   (C10_explicit_missing_name_amended wOne (Val.str "x") "zz" false false false "u").2
      (by decide) (by decide)⟩

/-- C8 counterexample: with both selectors supplied, one of them the empty
string, `is_full` does not fail with the ArgumentError-kind condition the
claim requires: Python truthiness treats the supplied `""` as absent, and
the call returns `ok false` for the existing consume channel instead. -/
theorem C8_empty_name_counterexample :
    is_full wC8 (some "") (some "c") = Except.ok false ∧
    (some "" : Option String) ≠ none ∧ (some "c" : Option String) ≠ none :=
  ⟨rfl, by simp, by simp⟩

/-- C8 amended: restricted to calls whose supplied selector names are
non-empty strings (the source tests the names for Python truthiness, so a
supplied `""` behaves as absent), `is_full` fails with the
ArgumentError-kind condition when zero or both selectors are supplied,
fails with the NotFoundError-kind condition when the single supplied name
is missing from the corresponding channel set, returns the fullness of the
single queue for an existing consume channel, and for an existing publish
channel returns true exactly when at least one fan-out destination queue is
full. -/
theorem C8_is_full_selector_amended (w : Worker) (pq cq : Option String)
    (hp : pq ≠ some "") (hc : cq ≠ some "") :
    (pq = none ∧ cq = none → is_full w pq cq = .error .noneOfParams) ∧
    (pq ≠ none ∧ cq ≠ none → is_full w pq cq = .error .onlyOneMustSet) ∧
    (∀ s, cq = some s → pq = none →
       ((dget w.consume_queues s = none → is_full w pq cq = .error .consumeNotFound) ∧
        (∀ q, dget w.consume_queues s = some q → is_full w pq cq = .ok q.full))) ∧
    (∀ s, pq = some s → cq = none →
       ((dget w.publish_queues s = none → is_full w pq cq = .error .publishNotFound) ∧
        (∀ qs, dget w.publish_queues s = some qs →
          is_full w pq cq = .ok (qs.any PQueue.full)))) := by
  rcases pq with _ | ps <;> rcases cq with _ | cs
  · refine ⟨fun _ => by simp [is_full], by simp, ?_, ?_⟩
    · intro s hs
      exact absurd hs (by simp)
    · intro s hs
      exact absurd hs (by simp)
  · have hcs : cs ≠ "" := fun he => hc (by rw [he])
    refine ⟨by simp, by simp, ?_, ?_⟩
    · intro s hs _
      obtain rfl : cs = s := by injection hs
      constructor
      · intro h
        simp [is_full, truthy, hcs, h]
      · intro q h
        simp [is_full, truthy, hcs, h]
    · intro s hs
      exact absurd hs (by simp)
  · have hps : ps ≠ "" := fun he => hp (by rw [he])
    refine ⟨by simp, by simp, ?_, ?_⟩
    · intro s hs
      exact absurd hs (by simp)
    · intro s hs _
      obtain rfl : ps = s := by injection hs
      constructor
      · intro h
        simp [is_full, truthy, hps, h]
      · intro qs h
        simp [is_full, truthy, hps, h]
  · have hcs : cs ≠ "" := fun he => hc (by rw [he])
    have hps : ps ≠ "" := fun he => hp (by rw [he])
    refine ⟨by simp, fun _ => by simp [is_full, truthy, hps, hcs], ?_, ?_⟩
    · intro s _ hn
      exact absurd hn (by simp)
    · intro s _ hn
      exact absurd hn (by simp)

/-- Witness for the amended C8: all four outcomes at concrete inputs. -/
theorem C8_is_full_selector_amended_witness :
    is_full wC8 none none = .error .noneOfParams ∧
    is_full wC8 (some "p") (some "c") = .error .onlyOneMustSet ∧
    is_full wC8 none (some "c") = .ok false ∧
    is_full wC8 none (some "zz") = .error .consumeNotFound ∧
    is_full wC8 (some "p") none = .error .publishNotFound :=
  ⟨(C8_is_full_selector_amended wC8 none none (by simp) (by simp)).1 ⟨rfl, rfl⟩,
   (C8_is_full_selector_amended wC8 (some "p") (some "c") (by simp) (by simp)).2.1
      ⟨by simp, by simp⟩,
   ((C8_is_full_selector_amended wC8 none (some "c") (by simp) (by simp)).2.2.1
      "c" rfl rfl).2 (uq []) rfl,
   ((C8_is_full_selector_amended wC8 none (some "zz") (by simp) (by simp)).2.2.1
      "zz" rfl rfl).1 rfl,
   ((C8_is_full_selector_amended wC8 (some "p") none (by simp) (by simp)).2.2.2
      "p" rfl rfl).1 rfl⟩

/-- C5: `publish` with `clear_on_overflow=true` on a resolved channel never
blocks: it returns a successful send whose destination queues are each
drained-from-the-front until not full and then receive the new message, and
on every destination that was full the new message is the last element,
the resulting occupancy is within the queue's capacity, and at least one
older message was discarded. -/
theorem C5_clear_on_overflow_publish (w : Worker) (m : Val) (n : String)
    (f : String) (qs : List PQueue) (h : dget w.publish_queues n = some qs) :
    publish w m (some n) true false f =
      .sent none { w with publish_queues := dinsert w.publish_queues n (qs.map (fun q => q.popWhileFull.push m)) } ∧
    ∀ q ∈ qs, q.full = true →
      ((q.popWhileFull.push m).items.getLast? = some m ∧
       ((q.popWhileFull.push m).items.length : Int) ≤ q.maxsize ∧
       q.popWhileFull.items.length < q.items.length) := by
  constructor
  · have hne := dget_ne_nil h
    rcases hpq : w.publish_queues with _ | ⟨⟨k0, v0⟩, rest⟩
    · exact absurd hpq hne
    · rw [hpq] at h
      simp [publish, hpq, h, putMany_clear]
  · intro q hq hf
    refine ⟨by simp [PQueue.push, List.getLast?_concat], ?_, popWhileFull_length_lt q hf⟩
    have h1 : q.popWhileFull.full = false := popWhileFull_not_full q
    have h2 : q.popWhileFull.maxsize = q.maxsize := popWhileFull_maxsize q
    have h3 : 0 < q.maxsize := ((full_iff q).mp hf).1
    have h5 : ¬(q.maxsize ≤ (q.popWhileFull.items.length : Int)) := by
      intro hle
      have hfull : q.popWhileFull.full = true := by
        rw [full_iff, h2]
        exact ⟨h3, hle⟩
      rw [hfull] at h1
      exact absurd h1 (by simp)
    simp only [PQueue.push, List.length_append, List.length_cons, List.length_nil]
    push_cast
    omega

/-- Witness for C5: the concrete full bounded channel of capacity 3. -/
theorem C5_clear_on_overflow_publish_witness :
    publish wFull (Val.str "m") (some "ch") true false "u" =
      .sent none { wFull with publish_queues := dinsert wFull.publish_queues "ch" ([qB3].map (fun q => q.popWhileFull.push (Val.str "m"))) } ∧
    ((qB3.popWhileFull.push (Val.str "m")).items.getLast? = some (Val.str "m") ∧
     ((qB3.popWhileFull.push (Val.str "m")).items.length : Int) ≤ qB3.maxsize ∧
     qB3.popWhileFull.items.length < qB3.items.length) := by
  have h := C5_clear_on_overflow_publish wFull (Val.str "m") "ch" "u" [qB3] rfl
  exact ⟨h.1, h.2 qB3 (by simp) (by decide)⟩

/-- C9: every `publish` call that results in a send resolved some channel;
if a personal send was requested, the enqueued value on every fan-out
destination is the payload wrapped into a `PersonalMessage` carrying the
one freshly generated correlation id and the sender's name, and that id is
returned to the caller; if not personal, the unwrapped message is enqueued
everywhere and no id is returned. -/
theorem C9_personal_publish (w : Worker) (m : Val) (qn : Option String)
    (c ip : Bool) (f : String) (pid : Option String) (w1 : Worker)
    (h : publish w m qn c ip f = .sent pid w1) :
    pid = (if ip then some f else none) ∧
    ∃ rn qs qs1, dget w.publish_queues rn = some qs ∧
      putMany qs (if ip then Val.pm f w.name m else m) c = some qs1 ∧
      w1 = { w with publish_queues := dinsert w.publish_queues rn qs1 } ∧
      ∀ q1 ∈ qs1, q1.items.getLast? = some (if ip then Val.pm f w.name m else m) := by
  rcases hpq : w.publish_queues with _ | ⟨⟨k0, v0⟩, rest⟩
  · simp [publish, hpq] at h
  · simp only [publish, hpq] at h
    split at h
    · exact absurd h (by simp)
    · rename_i qn1 heq
      split at h
      · exact absurd h (by simp)
      · rename_i qs heq2
        split at h
        · exact absurd h (by simp)
        · rename_i qs1 heq3
          rw [PubResult.sent.injEq] at h
          obtain ⟨hpid, hw1⟩ := h
          exact ⟨hpid.symm, qn1, qs, qs1, heq2, heq3, hw1.symm, putMany_last _ _ _ _ heq3⟩

/-- Witness for C9: a concrete personal publish on a one-channel worker. -/
theorem C9_personal_publish_witness :
    (some "uuid1" : Option String) = (if true then some "uuid1" else none) ∧
    ∃ rn qs qs1, dget wOne.publish_queues rn = some qs ∧
      putMany qs (if true then Val.pm "uuid1" wOne.name (Val.str "ping") else Val.str "ping") false = some qs1 ∧
      wOneAfter = { wOne with publish_queues := dinsert wOne.publish_queues rn qs1 } ∧
      ∀ q1 ∈ qs1, q1.items.getLast? =
        some (if true then Val.pm "uuid1" wOne.name (Val.str "ping") else Val.str "ping") :=
  C9_personal_publish wOne (Val.str "ping") (some "p") false true "uuid1"
    (some "uuid1") wOneAfter rfl

/-- C2: overflow fail-fast.  First conjunct: a worker with an empty
pending-reply buffer whose system channel holds at least 51 personal
messages with pairwise-distinct ids, none matching the awaited id, gets the
overflow fault from `consume_from_system_queue` instead of a payload or a
block.  Second conjunct: whenever the awaited id is not buffered and the
pending-reply buffer already exceeds the fixed cap of 50, the wait fails
with the overflow fault before any receive. -/
theorem C2_overflow_fail_fast (w : Worker) (pid : String) (q : PQueue)
    (hbuf : w.received_personal_messages = [])
    (hq : dget w.system_queues w.name = some q)
    (hlen : 51 ≤ q.items.length)
    (hpm : ∀ m ∈ q.items, m.isPM = true ∧ m.idOf ≠ some pid)
    (hnod : (q.items.map Val.idOf).Nodup) :
    consume_from_system_queue w pid = .overflow ∧
    ∀ w1 : Worker, dget w1.received_personal_messages pid = none →
      50 < w1.received_personal_messages.length →
      consume_from_system_queue w1 pid = .overflow := by
  constructor
  · have hloop : consumeLoop pid [] q.items = .overflow := by
      apply consumeLoop_overflow
      · intro m hm
        obtain ⟨h1, h2⟩ := hpm m hm
        cases m with
        | str s => exact absurd h1 (by simp [Val.isPM])
        | pm i c d =>
          refine ⟨i, c, d, rfl, ?_, rfl⟩
          simpa [Val.idOf] using h2
      · exact hnod
      · simpa using hlen
    simp [consume_from_system_queue, hbuf, hq, hloop, dget]
  · intro w1 h1 h2
    simp [consume_from_system_queue, h1, h2]

/-- Witness for C2: the worker whose system channel holds `msgs51`, and the
worker whose buffer already holds 51 entries. -/
theorem C2_overflow_fail_fast_witness :
    consume_from_system_queue wOverflow "target" = .overflow ∧
    consume_from_system_queue wBufFull "target" = .overflow := by
  have h := C2_overflow_fail_fast wOverflow "target" (uq msgs51) rfl rfl
    (by decide) (by decide) (by decide)
  exact ⟨h.1, h.2 wBufFull (by decide) (by decide)⟩

/-- C6: FIFO per channel.  A publisher whose channel fans out to empty
unbounded destination queues, publishing a sequence of messages without
`clear_on_overflow`, leaves every destination holding exactly that sequence
in publish order; a consumer whose channel holds that sequence receives,
by repeated plain `consume` calls, exactly the sequence in the same
order, emptying the queue. -/
theorem C6_fifo_per_channel (ch : String) (ms : List Val) (wp wc : Worker)
    (qs : List PQueue) (cq : PQueue)
    (hp : wp.publish_queues = [(ch, qs)])
    (hub : ∀ q ∈ qs, q.maxsize ≤ 0 ∧ q.items = [])
    (hc : wc.consume_queues = [(ch, cq)])
    (hi : cq.items = ms) :
    (∃ wp1, publishAll wp ms (some ch) = some wp1 ∧
       wp1.publish_queues = [(ch, qs.map (fun q => { q with items := ms }))]) ∧
    (∃ wc1, consumeAll wc ms.length (some ch) = some (ms, wc1) ∧
       wc1.consume_queues = [(ch, { cq with items := ([] : List Val) })]) := by
  constructor
  · obtain ⟨w1, h1, h2⟩ := publishAll_single ch ms wp qs hp (fun q hq1 => (hub q hq1).1)
    refine ⟨w1, h1, ?_⟩
    rw [h2]
    have he : qs.map (fun q => { q with items := q.items ++ ms }) =
        qs.map (fun q => { q with items := ms }) := by
      apply List.map_congr_left
      intro q hq1
      rw [(hub q hq1).2]
      rfl
    rw [he]
  · exact consumeAll_single ch ms wc cq hc hi

/-- Witness for C6: publishing `["1", "2"]` into an empty unbounded channel
and consuming them back. -/
theorem C6_fifo_per_channel_witness :
    (∃ wp1, publishAll wPubFifo msFifo (some "ch") = some wp1 ∧
       wp1.publish_queues = [("ch", [uq []].map (fun q => { q with items := msFifo }))]) ∧
    (∃ wc1, consumeAll wConFifo msFifo.length (some "ch") = some (msFifo, wc1) ∧
       wc1.consume_queues = [("ch", { uq msFifo with items := ([] : List Val) })]) :=
  C6_fifo_per_channel "ch" msFifo wPubFifo wConFifo [uq []] (uq msFifo)
    rfl (by decide) rfl rfl

/-- C1: the correlated round-trip claim fails on the code of
`consume_from_system_queue`.  First conjunct (the loop path behaves as
claimed): awaiting id `Z` while a reply with id `X` arrives first buffers
`X`'s payload and returns `Z`'s payload.  Second conjunct (the failing
input): a later call awaiting the buffered id `X` removes the entry but
then raises `AttributeError` instead of returning the payload `"pong"`,
because the buffer stores `message.data` while the fast path reads `.data`
off the stored value again. -/
theorem C1_buffered_reply_roundtrip_bug :
    consume_from_system_queue wRoundTrip "Z" =
      .ret (Val.str "zz")
        { wRoundTrip with
          received_personal_messages := [("X", Val.str "pong")],
          system_queues := [("A", uq [])] } ∧
    consume_from_system_queue wBuffered "X" =
      .attrError { wBuffered with received_personal_messages := [] } :=
  ⟨rfl, rfl⟩

end Rembrain
